import Mathlib

/-!
Verification development for a GoldSrc demo voice extractor.

The development shallowly embeds the two core components of the program:

* the sequence-recovery voice decoder (`decoder.rs`, `SteamVoiceDecoder`):
  length-prefixed entries with 16-bit little-endian length and sequence
  fields, a `0xFFFF` length sentinel meaning decoder reset, loss
  concealment for sequence gaps capped at 10, and output-capacity checks;
* the per-speaker timeline engine (`main.rs`, `PlayerStream` and the
  frame loop of `main`): a byte backlog, a warm-up timer, a playing flag,
  and per-tick sample release locked to the replay clock.

Modelling conventions: bytes are `Nat` values, machine integers are `Nat`
or `Int` with explicit wrapping where overflow matters, `f32` replay times
and the warm-up timer are embedded as exact rationals, and the underlying
Opus codec is abstracted by a stream `Codec.outs` giving the byte count
returned by each successive decode call (decode output contents and codec
failures are outside the scope of the verified claims).  `DecState` keeps
ghost instrumentation counters (`calls`, `resets`, `plc`) that record how
often the underlying codec operations were invoked; they do not influence
control flow.
-/

namespace GVE

/-- Error outcomes of the decoder.  Rust strings and panics are mapped to
constructors: the two string errors of `decoder.rs`, the sample-rate panic
of `decode`, and the slice-range panic of `output_buffer[total..]`. -/
inductive DErr where
  | insufficientData
  | insufficientOutputBuffer
  | sampleRateMismatch
  | sliceOutOfRange
  deriving DecidableEq, Repr

/-- Abstraction of the underlying Opus decoder: `outs k` is the number of
output bytes produced by the `k`-th invocation of `decode_fn` (either a
loss-concealment call with empty input or a normal payload decode). -/
structure Codec where
  outs : Nat → Nat

/-- State of `SteamVoiceDecoder`: `seq` is the `seq: u16` field
(`expectedSequence`), always kept below `2 ^ 16`.  The remaining fields are
ghost counters: `calls` counts invocations of `decode_fn`, `resets` counts
`reset_state` calls, `plc` counts loss-concealment invocations
(`decode_fn` with empty input). -/
structure DecState where
  seq : Nat
  calls : Nat
  resets : Nat
  plc : Nat
  deriving DecidableEq, Repr

/-- `read_u16` of `decoder.rs`: reads a little-endian 16-bit value from the
front of the byte list, returning the value and the remaining bytes. -/
def read_u16 (data : List Nat) : Option (Nat × List Nat) :=
  match data with
  | b0 :: b1 :: rest => some (b0 + b1 * 256, rest)
  | _ => none

/-- The loss-concealment loop of `decode_opus` (`for _ in 0..lost`): each
round invokes `decode_fn` with empty input, adds its output count to the
running total, and fails with `InsufficientOutputBuffer` as soon as the
total reaches the output capacity `cap` (the Rust check is `total >=
output_buffer.len()`). -/
def plcLoop (c : Codec) (cap : Nat) : Nat → Nat → DecState → DecState × Except DErr Nat
  | 0, total, st => (st, Except.ok total)
  | Nat.succ k, total, st =>
    if cap ≤ total + c.outs st.calls then
      ({ st with calls := st.calls + 1, plc := st.plc + 1 },
        Except.error DErr.insufficientOutputBuffer)
    else
      plcLoop c cap k (total + c.outs st.calls)
        { st with calls := st.calls + 1, plc := st.plc + 1 }

/-- One non-sentinel entry of the `decode_opus` loop, after `len` and `seq`
have been read and `d2` is the data following the sequence field:
if `seq < self.seq` reset the decoder, otherwise run loss concealment for
`min (seq - self.seq) 10` lost positions; then set
`self.seq = seq + 1` (wrapping `u16` addition), check that `len` payload
bytes remain, decode the payload, and check the output capacity.
State changes persist on error, as the Rust `self` mutations do. -/
def decodeEntry (c : Codec) (cap len seq : Nat) (d2 : List Nat) (total : Nat)
    (st : DecState) : DecState × Except DErr Nat :=
  match (if seq < st.seq then ({ st with resets := st.resets + 1 }, Except.ok total)
         else plcLoop c cap (min (seq - st.seq) 10) total st) with
  | (st1, Except.error e) => (st1, Except.error e)
  | (st1, Except.ok t1) =>
    if d2.length < len then
      ({ st1 with seq := (seq + 1) % 65536 }, Except.error DErr.insufficientData)
    else if cap ≤ t1 + c.outs st1.calls then
      ({ st1 with seq := (seq + 1) % 65536, calls := st1.calls + 1 },
        Except.error DErr.insufficientOutputBuffer)
    else
      ({ st1 with seq := (seq + 1) % 65536, calls := st1.calls + 1 },
        Except.ok (t1 + c.outs st1.calls))

/-- The `while data.len() > 2` loop of `decode_opus`, written with an
explicit fuel that decreases by one per iteration.  Every iteration
consumes at least two bytes of `data`, so fuel `data.length` (supplied by
`decode_opus`) is always sufficient; `decodeOpusGo_fuel` below proves that
the result is the same for every sufficient fuel.  Reads a 16-bit length;
the sentinel `0xFFFF` resets the decoder and `seq` and continues;
otherwise reads the sequence number and processes the entry. -/
def decodeOpusGo (c : Codec) (cap : Nat) :
    Nat → List Nat → Nat → DecState → DecState × Except DErr Nat
  | 0, _, total, st => (st, Except.ok total)
  | Nat.succ fuel, data, total, st =>
    if 2 < data.length then
      match read_u16 data with
      | none => (st, Except.error DErr.insufficientData)
      | some (len, d1) =>
        if len = 65535 then
          decodeOpusGo c cap fuel d1 total { st with seq := 0, resets := st.resets + 1 }
        else
          match read_u16 d1 with
          | none => (st, Except.error DErr.insufficientData)
          | some (seq, d2) =>
            match decodeEntry c cap len seq d2 total st with
            | (st1, Except.error e) => (st1, Except.error e)
            | (st1, Except.ok t1) => decodeOpusGo c cap fuel (List.drop len d2) t1 st1
    else (st, Except.ok total)

/-- `SteamVoiceDecoder::decode_opus` with output capacity `cap` (the length
of the output slice handed to it). -/
def decode_opus (c : Codec) (cap : Nat) (data : List Nat) (st : DecState) :
    DecState × Except DErr Nat :=
  decodeOpusGo c cap data.length data 0 st

/-- The protocol units produced by the external `steam_audio_codec` parser
(`Packet` in the source): a sample-rate announcement, an Opus-with-PLC
payload, or a silence run of `n` samples. -/
inductive Packet where
  | sampleRate (rate : Nat)
  | opusPlc (data : List Nat)
  | silence (n : Nat)
  deriving DecidableEq, Repr

/-- The packet loop of `SteamVoiceDecoder::decode` with output capacity
`cap` and running byte total `total`.  A sample rate other than 24000
panics (modelled as an error); an Opus packet is decoded by `decode_opus`
into the remaining slice `output_buffer[total..]` (whose formation panics
when `total` exceeds the buffer length) followed by the `total >=
output_buffer.len()` check; a silence packet adds
`silence as usize * size_of::<i16>()` bytes with no capacity check. -/
def decodeGo (c : Codec) (cap : Nat) :
    List Packet → Nat → DecState → DecState × Except DErr Nat
  | [], total, st => (st, Except.ok total)
  | p :: ps, total, st =>
    match p with
    | Packet.sampleRate r =>
      if r = 24000 then decodeGo c cap ps total st
      else (st, Except.error DErr.sampleRateMismatch)
    | Packet.opusPlc d =>
      if cap < total then (st, Except.error DErr.sliceOutOfRange)
      else
        match decode_opus c (cap - total) d st with
        | (st1, Except.error e) => (st1, Except.error e)
        | (st1, Except.ok size) =>
          if cap ≤ total + size then (st1, Except.error DErr.insufficientOutputBuffer)
          else decodeGo c cap ps (total + size) st1
    | Packet.silence n => decodeGo c cap ps (total + n * 2) st

/-- `SteamVoiceDecoder::decode`: processes the packets of one voice message
into an output buffer of capacity `cap` bytes, returning the total number
of output bytes. -/
def decode (c : Codec) (cap : Nat) (ps : List Packet) (st : DecState) :
    DecState × Except DErr Nat :=
  decodeGo c cap ps 0 st

/-- The two sample formats the decoder is constructed with
(`AV_SAMPLE_FMT_S16` and `AV_SAMPLE_FMT_FLT`). -/
inductive SampleFormat where
  | s16
  | flt
  deriving DecidableEq, Repr

/-- Bytes per sample of each format, as used by the `decode_fn` closures
(`size_of::<i16>()` and `size_of::<f32>()`). -/
def bytesPerSample : SampleFormat → Nat
  | SampleFormat.s16 => 2
  | SampleFormat.flt => 4

/-- Trivial codec instance for concrete evaluations: every decode call
returns zero bytes. -/
def c0 : Codec := ⟨fun _ => 0⟩

/-- Codec instance for concrete evaluations: every decode call returns two
bytes (one 16-bit sample). -/
def cW : Codec := ⟨fun _ => 2⟩

/-- Codec instance for concrete evaluations: every decode call returns four
bytes. -/
def cQuad : Codec := ⟨fun _ => 4⟩

/-- The initial decoder state (`seq: 0` and all ghost counters zero). -/
def st0 : DecState := ⟨0, 0, 0, 0⟩

/-- A decoder state in mid-stream, expecting sequence number 5. -/
def stEx : DecState := ⟨5, 0, 0, 0⟩

/-!
The per-speaker timeline engine of `main.rs`.  `f32` times and the warm-up
timer are embedded as exact rationals; the demo frame loop is modelled for
a single speaker (the Rust loop treats every speaker's `PlayerStream`
independently, so one stream quantified over arbitrary inputs covers each
speaker).  The downstream encoding (frame accumulator, resampler, codec
context, muxer) is outside the verified core and is not modelled; the
released per-tick sample runs are returned and a ghost counter `released`
records the cumulative number of released samples (real and silent).
-/

/-- `INITIAL_TIME_PAD_SECONDS: f32 = 0.2` of `main.rs`. -/
def INITIAL_TIME_PAD_SECONDS : ℚ := 1 / 5

/-- `SAMPLE_RATE: i32 = 24_000` of `main.rs`. -/
def SAMPLE_RATE : Nat := 24000

/-- The timeline-relevant state of `PlayerStream`: the byte backlog
`decoded_samples` (a FIFO of decoded PCM bytes), the warm-up timer
`time_pad`, the `playing` flag, the replay-clock position `last_demo_pts`
of the last processed tick, and the sample width `bytes_per_sample`.
`released` is a ghost counter of samples released since stream start. -/
structure PStream where
  decoded_samples : List Nat
  time_pad : ℚ
  playing : Bool
  last_demo_pts : Int
  bytes_per_sample : Nat
  released : Nat
  deriving DecidableEq, Repr

/-- The fresh `PlayerStream` built by `PlayerStream::new`. -/
def PStream.init (bps : Nat) : PStream :=
  { decoded_samples := [], time_pad := INITIAL_TIME_PAD_SECONDS, playing := false,
    last_demo_pts := 0, bytes_per_sample := bps, released := 0 }

/-- `PlayerStream::append_samples`: if the backlog is empty the warm-up
timer is reset to the initial delay, then the new bytes are appended. -/
def append_samples (p : PStream) (samples : List Nat) : PStream :=
  if p.decoded_samples.length = 0 then
    { p with time_pad := INITIAL_TIME_PAD_SECONDS,
             decoded_samples := p.decoded_samples ++ samples }
  else
    { p with decoded_samples := p.decoded_samples ++ samples }

/-- The byte loop of `PlayerStream::consume_samples`: pop `n` bytes off the
front of the queue, substituting 0 for every missing byte; returns the
popped bytes and the remaining queue. -/
def consumeBytes : Nat → List Nat → List Nat × List Nat
  | 0, q => ([], q)
  | Nat.succ n, [] =>
    match consumeBytes n [] with
    | (out, q) => (0 :: out, q)
  | Nat.succ n, s :: q =>
    match consumeBytes n q with
    | (out, rest) => (s :: out, rest)

/-- `PlayerStream::consume_samples`: releases
`sample_count * bytes_per_sample` bytes, zero-padding past the end of the
backlog. -/
def consume_samples (p : PStream) (sample_count : Nat) : List Nat × PStream :=
  match consumeBytes (sample_count * p.bytes_per_sample) p.decoded_samples with
  | (out, rest) => (out, { p with decoded_samples := rest })

/-- The warm-up block of the frame loop (`main`): while the timer is
positive and the backlog is non-empty, subtract the frame time; if the
timer drops to `≤ 0`, start playing. -/
def warmupStep (frametime : ℚ) (p : PStream) : PStream :=
  if 0 < p.time_pad ∧ p.decoded_samples.length ≠ 0 then
    if p.time_pad - frametime ≤ 0 then
      { p with time_pad := p.time_pad - frametime, playing := true }
    else
      { p with time_pad := p.time_pad - frametime }
  else p

/-- The release block of the frame loop (`main`): when playing, consume the
due samples from the backlog (zero-padding underruns) and stop playing if
the backlog is now empty; otherwise emit the due number of zero samples.
The ghost counter `released` records the due sample count either way. -/
def releaseStep (p : PStream) (cnt : Nat) : PStream × List Nat :=
  if p.playing then
    match consume_samples p cnt with
    | (out, p1) =>
      if p1.decoded_samples.length = 0 then
        ({ p1 with playing := false, released := p1.released + cnt }, out)
      else
        ({ p1 with released := p1.released + cnt }, out)
  else
    ({ p with released := p.released + cnt },
      List.replicate (cnt * p.bytes_per_sample) 0)

/-- The `as usize` cast of the `i64` pts delta
(`demo_frame_time_as_pts - last_demo_pts`): two's-complement conversion,
i.e. the value modulo `2 ^ 64`. -/
def usizeOfInt (z : Int) : Nat := (z % (2 ^ 64 : Int)).toNat

/-- One processed tick for one speaker (`main`, after the `frametime == 0`
test): run the warm-up block, compute the due sample count from the pts
delta, record the new pts, and release. -/
def tickPlayer (pts : Int) (frametime : ℚ) (p : PStream) : PStream × List Nat :=
  releaseStep
    { warmupStep frametime p with last_demo_pts := pts }
    (usizeOfInt (pts - (warmupStep frametime p).last_demo_pts))

/-- One replay frame for one speaker: the frame's timestamp in seconds and
the list of decoded voice byte runs appended for this speaker during the
frame (one entry per successfully decoded voice message; possibly
empty runs, matching `append_samples(&tmp[..0])`). -/
structure Frame where
  time : ℚ
  appends : List (List Nat)
  deriving DecidableEq, Repr

/-- The tick duration `(demo_frame.time - prev).max(0.0)` of the frame
loop; `0` for the very first frame (`last_frame_time == None`). -/
def frameDelta (lastT : Option ℚ) (t : ℚ) : ℚ :=
  match lastT with
  | none => 0
  | some prev => max (t - prev) 0

/-- One iteration of the frame loop of `main` for one speaker: append any
decoded voice bytes, record the frame time, and unless the tick duration
is zero, run the tick at pts `floor(time * SAMPLE_RATE)`.  The released
byte run is handed to the (unmodelled) encoder, so only the stream state
is kept. -/
def runFrame (st : Option ℚ × PStream) (fr : Frame) : Option ℚ × PStream :=
  if frameDelta st.1 fr.time = 0 then
    (some fr.time, fr.appends.foldl append_samples st.2)
  else
    (some fr.time,
      (tickPlayer (Rat.floor (fr.time * (SAMPLE_RATE : ℚ))) (frameDelta st.1 fr.time)
        (fr.appends.foldl append_samples st.2)).1)

/-- The whole frame loop of `main` for one speaker with sample width
`bps`, starting from a fresh stream and no previous frame time. -/
def runFrames (bps : Nat) (fs : List Frame) : Option ℚ × PStream :=
  fs.foldl runFrame (none, PStream.init bps)

/-- `lastTimeOf lt fs` is the `last_frame_time` value after the frames
`fs` have been visited, starting from `lt`. -/
def lastTimeOf (lt : Option ℚ) (fs : List Frame) : Option ℚ :=
  fs.foldl (fun _ f => some f.time) lt

/-- Checks `prev ≤ t` against an optional previous frame time. -/
def leOpt (lastT : Option ℚ) (t : ℚ) : Bool :=
  match lastT with
  | none => true
  | some prev => decide (prev ≤ t)

/-- Well-formedness of a replay suffix relative to the previous frame
time: all timestamps are non-negative and non-decreasing, and every pts
value `floor(t * SAMPLE_RATE)` is within the `usize` range. -/
def framesOk : Option ℚ → List Frame → Bool
  | _, [] => true
  | lastT, fr :: rest =>
    (decide (0 ≤ fr.time) && leOpt lastT fr.time &&
      decide (Rat.floor (fr.time * (SAMPLE_RATE : ℚ)) < 2 ^ 64)) &&
    framesOk (some fr.time) rest

/-- Relation between `last_demo_pts` and the previous frame time: before
any frame the pts is 0; afterwards it is at most the pts of the last
visited frame. -/
def ptsBound (lastT : Option ℚ) (z : Int) : Prop :=
  match lastT with
  | none => z = 0
  | some prev => z ≤ Rat.floor (prev * (SAMPLE_RATE : ℚ))

/-- The frame-lock invariant of the driver state: the ghost release
counter always equals the replay-clock position `last_demo_pts`, which is
non-negative and bounded by the pts of the last visited frame. -/
def c1Inv (st : Option ℚ × PStream) : Prop :=
  st.2.released = st.2.last_demo_pts.toNat ∧ 0 ≤ st.2.last_demo_pts ∧
  ptsBound st.1 st.2.last_demo_pts

/-- C1 counterexample: a replay whose timestamps are non-decreasing but
negative satisfies the claim's hypothesis, its second frame is a
processed tick, yet the released count (a huge `usize` wraparound of a
negative pts delta) differs from `floor(tickTime * sampleRate)`, which is
negative. -/
def c1CexFrames : List Frame := [⟨-1, []⟩, ⟨-(1/2), []⟩]

/-- A stream whose backlog emptied mid-play: empty backlog, partially
burned (negative) warm-up timer, not playing. -/
def pC8 : PStream := ⟨[], -(1/20), false, 4800, 2, 4800⟩

/-- A playing stream with a three-byte backlog (one and a half 16-bit
samples), about to underrun. -/
def pW : PStream := ⟨[5, 6, 7], 1/5, true, 0, 2, 0⟩

/-- A byte of `read_u16` consumes exactly two bytes. -/
lemma read_u16_length {data rest : List Nat} {v : Nat}
    (h : read_u16 data = some (v, rest)) : rest.length + 2 = data.length := by
  match data with
  | [] => simp [read_u16] at h
  | [b0] => simp [read_u16] at h
  | b0 :: b1 :: r =>
    simp [read_u16] at h
    simp [h.2]

/-- Fuel irrelevance for the `decode_opus` loop: any two fuels at least as
large as the remaining data length give the same result, certifying that
the fuel `data.length` used by `decode_opus` is sufficient. -/
lemma decodeOpusGo_fuel (c : Codec) (cap : Nat) :
    ∀ f g data total st, data.length ≤ f → data.length ≤ g →
      decodeOpusGo c cap f data total st = decodeOpusGo c cap g data total st := by
  intro f
  induction f with
  | zero =>
    intro g data total st hf _
    have hnil : data = [] := List.length_eq_zero.mp (Nat.le_zero.mp hf)
    subst hnil
    cases g with
    | zero => rfl
    | succ g => simp [decodeOpusGo]
  | succ f ih =>
    intro g data total st hf hg
    cases g with
    | zero =>
      have hnil : data = [] := List.length_eq_zero.mp (Nat.le_zero.mp hg)
      subst hnil
      simp [decodeOpusGo]
    | succ g =>
      by_cases hlen : 2 < data.length
      · cases hr1 : read_u16 data with
        | none => simp only [decodeOpusGo, if_pos hlen, hr1]
        | some p1 =>
          obtain ⟨len, d1⟩ := p1
          have hd1 : d1.length + 2 = data.length := read_u16_length hr1
          simp only [decodeOpusGo, if_pos hlen, hr1]
          by_cases hsent : len = 65535
          · simp only [if_pos hsent]
            exact ih g d1 total _ (by omega) (by omega)
          · simp only [if_neg hsent]
            cases hr2 : read_u16 d1 with
            | none => simp only [hr2]
            | some p2 =>
              obtain ⟨seq, d2⟩ := p2
              have hd2 : d2.length + 2 = d1.length := read_u16_length hr2
              simp only [hr2]
              cases he : decodeEntry c cap len seq d2 total st with
              | mk st1 r =>
                cases r with
                | error e => simp only [he]
                | ok t1 =>
                  simp only [he]
                  have hdrop : (List.drop len d2).length ≤ d2.length := by
                    rw [List.length_drop]; omega
                  exact ih g (List.drop len d2) t1 st1 (by omega) (by omega)
      · simp [decodeOpusGo, hlen]

/-- A successful loss-concealment loop of `n` rounds performs exactly `n`
codec calls, all of them concealment calls, and touches nothing else in
the decoder state. -/
lemma plcLoop_ok (c : Codec) (cap : Nat) :
    ∀ n total st t, (plcLoop c cap n total st).2 = Except.ok t →
      (plcLoop c cap n total st).1.calls = st.calls + n ∧
      (plcLoop c cap n total st).1.plc = st.plc + n ∧
      (plcLoop c cap n total st).1.seq = st.seq ∧
      (plcLoop c cap n total st).1.resets = st.resets := by
  intro n
  induction n with
  | zero => intro total st t _; exact ⟨rfl, rfl, rfl, rfl⟩
  | succ k ih =>
    intro total st t h
    simp only [plcLoop] at h ⊢
    by_cases hc : cap ≤ total + c.outs st.calls
    · simp [hc] at h
    · simp only [if_neg hc] at h ⊢
      obtain ⟨h1, h2, h3, h4⟩ := ih _ _ _ h
      refine ⟨?_, ?_, ?_, ?_⟩ <;> simp only [h1, h2, h3, h4] <;> omega

/-- A loss-concealment loop never changes `seq` or `resets`, whatever its
outcome. -/
lemma plcLoop_seq_resets (c : Codec) (cap : Nat) :
    ∀ n total st, (plcLoop c cap n total st).1.seq = st.seq ∧
      (plcLoop c cap n total st).1.resets = st.resets := by
  intro n
  induction n with
  | zero => intro total st; exact ⟨rfl, rfl⟩
  | succ k ih =>
    intro total st
    simp only [plcLoop]
    by_cases hc : cap ≤ total + c.outs st.calls
    · simp [hc]
    · simpa [hc] using ih (total + c.outs st.calls) _

/-- A successful payload decode always leaves the accumulated total
strictly below the capacity: `decodeEntry` checks `total >= cap` after
every output-producing step and errors when it is reached. -/
lemma decodeEntry_ok_lt (c : Codec) (cap len seq : Nat) (d2 : List Nat)
    (total : Nat) (st : DecState) (t : Nat)
    (h : (decodeEntry c cap len seq d2 total st).2 = Except.ok t) : t < cap := by
  unfold decodeEntry at h
  split at h
  · simp at h
  · split_ifs at h with hd hc
    all_goals simp at h
    all_goals omega

/-- A successful run of the `decode_opus` loop either produced no output at
all (`t = total`) or ended strictly below the capacity: the `total >=
output_buffer.len()` check fires on every output-producing step, so an
exactly-full buffer is never a success. -/
lemma decodeOpusGo_ok (c : Codec) (cap : Nat) :
    ∀ fuel data total st t, (decodeOpusGo c cap fuel data total st).2 = Except.ok t →
      t = total ∨ t < cap := by
  intro fuel
  induction fuel with
  | zero =>
    intro data total st t h
    simp [decodeOpusGo] at h
    omega
  | succ fuel ih =>
    intro data total st t h
    by_cases hlen : 2 < data.length
    · cases hr1 : read_u16 data with
      | none => simp [decodeOpusGo, if_pos hlen, hr1] at h
      | some p1 =>
        obtain ⟨len, d1⟩ := p1
        by_cases hsent : len = 65535
        · simp only [decodeOpusGo, if_pos hlen, hr1, if_pos hsent] at h
          exact ih _ _ _ _ h
        · simp only [decodeOpusGo, if_pos hlen, hr1, if_neg hsent] at h
          cases hr2 : read_u16 d1 with
          | none => simp [hr2] at h
          | some p2 =>
            obtain ⟨seq, d2⟩ := p2
            simp only [hr2] at h
            cases he : decodeEntry c cap len seq d2 total st with
            | mk st1 r =>
              cases r with
              | error e => simp [he] at h
              | ok t1 =>
                simp only [he] at h
                have ht1 : t1 < cap := decodeEntry_ok_lt c cap len seq d2 total st t1 (by rw [he])
                rcases ih _ _ _ _ h with h2 | h2
                · exact Or.inr (h2 ▸ ht1)
                · exact Or.inr h2
    · simp [decodeOpusGo, hlen] at h
      omega

/-- A successful `decode` of a message containing no silence run either
produced no output or stayed strictly below the capacity: the `total >=
output_buffer.len()` check after every Opus packet rules out exact fills. -/
lemma decodeGo_nosilence (c : Codec) (cap : Nat) :
    ∀ ps total st t, (∀ p ∈ ps, ∀ n, p ≠ Packet.silence n) →
      (decodeGo c cap ps total st).2 = Except.ok t → t = total ∨ t < cap := by
  intro ps
  induction ps with
  | nil =>
    intro total st t _ h
    simp [decodeGo] at h
    omega
  | cons p ps ih =>
    intro total st t hns h
    cases p with
    | sampleRate r =>
      by_cases hr : r = 24000
      · simp only [decodeGo, if_pos hr] at h
        exact ih total st t (fun q hq => hns q (List.mem_cons_of_mem _ hq)) h
      · simp [decodeGo, hr] at h
    | opusPlc d =>
      by_cases hcap : cap < total
      · simp [decodeGo, hcap] at h
      · simp only [decodeGo, if_neg hcap] at h
        cases hdo : decode_opus c (cap - total) d st with
        | mk st1 r2 =>
          cases r2 with
          | error e => simp [hdo] at h
          | ok size =>
            simp only [hdo] at h
            by_cases hc2 : cap ≤ total + size
            · simp [hc2] at h
            · simp only [if_neg hc2] at h
              rcases ih _ _ _ (fun q hq => hns q (List.mem_cons_of_mem _ hq)) h with h2 | h2
              · exact Or.inr (by omega)
              · exact Or.inr h2
    | silence n => exact absurd rfl (hns _ (List.mem_cons_self _ _) n)

/-- `Rat.floor` agrees with the Mathlib floor on `ℚ`. -/
lemma ratFloor_eq_intFloor (q : ℚ) : Rat.floor q = Int.floor q := by
  rw [Rat.floor_def', Rat.floor_def]

lemma ratFloor_nonneg {q : ℚ} (h : 0 ≤ q) : 0 ≤ Rat.floor q := by
  rw [ratFloor_eq_intFloor]
  exact Int.floor_nonneg.mpr h

lemma ratFloor_mono {a b : ℚ} (h : a ≤ b) : Rat.floor a ≤ Rat.floor b := by
  rw [ratFloor_eq_intFloor, ratFloor_eq_intFloor]
  exact Int.floor_le_floor h

/-- The released run of `consumeBytes` is the queue front padded with
zeros, and the remaining queue is the corresponding drop. -/
lemma consumeBytes_spec : ∀ (n : Nat) (q : List Nat),
    (consumeBytes n q).1 = q.take n ++ List.replicate (n - q.length) 0 ∧
    (consumeBytes n q).2 = q.drop n := by
  intro n
  induction n with
  | zero => intro q; simp [consumeBytes]
  | succ n ih =>
    intro q
    cases q with
    | nil =>
      obtain ⟨h1, h2⟩ := ih []
      cases hq : consumeBytes n [] with
      | mk out rest =>
        rw [hq] at h1 h2
        simp only [consumeBytes, hq]
        simp only [List.take_nil, List.nil_append, List.drop_nil] at h1 h2 ⊢
        simp [h1, h2, List.replicate_succ]
    | cons s q =>
      obtain ⟨h1, h2⟩ := ih q
      cases hq : consumeBytes n q with
      | mk out rest =>
        rw [hq] at h1 h2
        simp only [consumeBytes, hq]
        simp only at h1 h2
        simp [h1, h2, Nat.succ_sub_succ]

lemma append_samples_fields (p : PStream) (a : List Nat) :
    (append_samples p a).released = p.released ∧
    (append_samples p a).last_demo_pts = p.last_demo_pts ∧
    (append_samples p a).bytes_per_sample = p.bytes_per_sample ∧
    (append_samples p a).playing = p.playing := by
  unfold append_samples
  split_ifs <;> exact ⟨rfl, rfl, rfl, rfl⟩

lemma appendsFold_fields (as : List (List Nat)) :
    ∀ p : PStream, (as.foldl append_samples p).released = p.released ∧
      (as.foldl append_samples p).last_demo_pts = p.last_demo_pts := by
  induction as with
  | nil => intro p; exact ⟨rfl, rfl⟩
  | cons a as ih =>
    intro p
    obtain ⟨h1, h2⟩ := ih (append_samples p a)
    obtain ⟨g1, g2, g3, g4⟩ := append_samples_fields p a
    exact ⟨by rw [List.foldl_cons, h1, g1], by rw [List.foldl_cons, h2, g2]⟩

lemma warmupStep_fields (ft : ℚ) (p : PStream) :
    (warmupStep ft p).released = p.released ∧
    (warmupStep ft p).last_demo_pts = p.last_demo_pts ∧
    (warmupStep ft p).decoded_samples = p.decoded_samples ∧
    (warmupStep ft p).bytes_per_sample = p.bytes_per_sample := by
  unfold warmupStep
  split_ifs <;> exact ⟨rfl, rfl, rfl, rfl⟩

lemma releaseStep_fields (p : PStream) (cnt : Nat) :
    (releaseStep p cnt).1.released = p.released + cnt ∧
    (releaseStep p cnt).1.last_demo_pts = p.last_demo_pts := by
  unfold releaseStep consume_samples
  split_ifs with h
  · cases hq : consumeBytes (cnt * p.bytes_per_sample) p.decoded_samples with
    | mk out rest =>
      simp only [hq]
      split_ifs <;> exact ⟨rfl, rfl⟩
  · exact ⟨rfl, rfl⟩

lemma tickPlayer_fields (pts : Int) (ft : ℚ) (p : PStream) :
    (tickPlayer pts ft p).1.released = p.released + usizeOfInt (pts - p.last_demo_pts) ∧
    (tickPlayer pts ft p).1.last_demo_pts = pts := by
  unfold tickPlayer
  obtain ⟨hw1, hw2, hw3, hw4⟩ := warmupStep_fields ft p
  obtain ⟨hr1, hr2⟩ := releaseStep_fields
    { warmupStep ft p with last_demo_pts := pts }
    (usizeOfInt (pts - (warmupStep ft p).last_demo_pts))
  constructor
  · rw [hr1]
    simp [hw1, hw2]
  · rw [hr2]

lemma runFrame_fst (st : Option ℚ × PStream) (fr : Frame) :
    (runFrame st fr).1 = some fr.time := by
  unfold runFrame
  split_ifs <;> rfl

lemma runFrames_fst : ∀ (fs : List Frame) (st : Option ℚ × PStream),
    (fs.foldl runFrame st).1 = lastTimeOf st.1 fs := by
  intro fs
  induction fs with
  | nil => intro st; rfl
  | cons fr fs ih =>
    intro st
    rw [List.foldl_cons, ih (runFrame st fr), runFrame_fst]
    rfl

lemma leOpt_some {prev t : ℚ} (h : leOpt (some prev) t = true) : prev ≤ t := by
  simpa [leOpt] using h

lemma framesOk_cons {lastT : Option ℚ} {fr : Frame} {fs : List Frame}
    (h : framesOk lastT (fr :: fs) = true) :
    0 ≤ fr.time ∧ leOpt lastT fr.time = true ∧
    Rat.floor (fr.time * (SAMPLE_RATE : ℚ)) < 2 ^ 64 ∧
    framesOk (some fr.time) fs = true := by
  simp only [framesOk, Bool.and_eq_true, decide_eq_true_eq] at h
  exact ⟨h.1.1.1, h.1.1.2, h.1.2, h.2⟩

lemma framesOk_append : ∀ (l : List Frame) (lt : Option ℚ) (l2 : List Frame),
    framesOk lt (l ++ l2) = true →
    framesOk lt l = true ∧ framesOk (lastTimeOf lt l) l2 = true := by
  intro l
  induction l with
  | nil => intro lt l2 h; exact ⟨rfl, h⟩
  | cons fr l ih =>
    intro lt l2 h
    rw [List.cons_append] at h
    simp only [framesOk, Bool.and_eq_true] at h
    obtain ⟨hX, hrest⟩ := h
    obtain ⟨hl, hl2⟩ := ih (some fr.time) l2 hrest
    refine ⟨?_, ?_⟩
    · simp only [framesOk, Bool.and_eq_true]
      exact ⟨hX, hl⟩
    · exact hl2

/-- One frame preserves the frame-lock invariant. -/
lemma c1_step (st : Option ℚ × PStream) (fr : Frame)
    (h : c1Inv st) (h0 : 0 ≤ fr.time)
    (hle : leOpt st.1 fr.time = true)
    (hbound : Rat.floor (fr.time * (SAMPLE_RATE : ℚ)) < 2 ^ 64) :
    c1Inv (runFrame st fr) := by
  obtain ⟨hA, hB, hC⟩ := h
  have hfl0 : (0 : Int) ≤ Rat.floor (fr.time * (SAMPLE_RATE : ℚ)) :=
    ratFloor_nonneg (by positivity)
  have hlast_le : st.2.last_demo_pts ≤ Rat.floor (fr.time * (SAMPLE_RATE : ℚ)) := by
    cases hst : st.1 with
    | none =>
      rw [hst] at hC
      simp only [ptsBound] at hC
      omega
    | some prev =>
      rw [hst] at hC hle
      simp only [ptsBound] at hC
      have hp : prev ≤ fr.time := leOpt_some hle
      have hm : Rat.floor (prev * (SAMPLE_RATE : ℚ)) ≤
          Rat.floor (fr.time * (SAMPLE_RATE : ℚ)) :=
        ratFloor_mono (mul_le_mul_of_nonneg_right hp (by positivity))
      omega
  unfold runFrame
  obtain ⟨ha1, ha2⟩ := appendsFold_fields fr.appends st.2
  split_ifs with hft
  · refine ⟨?_, ?_, ?_⟩
    · simpa [ha1, ha2] using hA
    · simpa [ha2] using hB
    · simp only [ptsBound]
      rw [ha2]
      exact hlast_le
  · obtain ⟨ht1, ht2⟩ := tickPlayer_fields
      (Rat.floor (fr.time * (SAMPLE_RATE : ℚ))) (frameDelta st.1 fr.time)
      (fr.appends.foldl append_samples st.2)
    have hcnt : usizeOfInt (Rat.floor (fr.time * (SAMPLE_RATE : ℚ)) -
        (fr.appends.foldl append_samples st.2).last_demo_pts) =
        (Rat.floor (fr.time * (SAMPLE_RATE : ℚ)) - st.2.last_demo_pts).toNat := by
      rw [ha2]
      unfold usizeOfInt
      rw [Int.emod_eq_of_lt (by omega) (by omega)]
    refine ⟨?_, ?_, ?_⟩
    · show (tickPlayer _ _ _).1.released = (tickPlayer _ _ _).1.last_demo_pts.toNat
      rw [ht1, ht2, hcnt, ha1, hA]
      omega
    · show (0 : Int) ≤ (tickPlayer _ _ _).1.last_demo_pts
      rw [ht2]
      exact hfl0
    · simp only [ptsBound]
      rw [ht2]

/-- The frame-lock invariant holds after any well-formed run. -/
lemma c1_run : ∀ (fs : List Frame) (st : Option ℚ × PStream),
    c1Inv st → framesOk st.1 fs = true → c1Inv (fs.foldl runFrame st) := by
  intro fs
  induction fs with
  | nil => intro st h _; exact h
  | cons fr fs ih =>
    intro st h hok
    obtain ⟨h0, hle, hbound, hrest⟩ := framesOk_cons hok
    rw [List.foldl_cons]
    refine ih (runFrame st fr) (c1_step st fr h h0 hle hbound) ?_
    rw [runFrame_fst]
    exact hrest

lemma runFrames_fst' (bps : Nat) (fs : List Frame) :
    (runFrames bps fs).1 = lastTimeOf none fs :=
  runFrames_fst fs (none, PStream.init bps)

lemma runFrame_skip (st : Option ℚ × PStream) (fr : Frame)
    (hz : frameDelta st.1 fr.time = 0) :
    runFrame st fr = (some fr.time, fr.appends.foldl append_samples st.2) := by
  unfold runFrame
  rw [if_pos hz]

lemma runFrame_tick (st : Option ℚ × PStream) (fr : Frame) (p2 : PStream)
    (hne : frameDelta st.1 fr.time ≠ 0)
    (hp2 : (tickPlayer (Rat.floor (fr.time * (SAMPLE_RATE : ℚ)))
      (frameDelta st.1 fr.time) (fr.appends.foldl append_samples st.2)).1 = p2) :
    runFrame st fr = (some fr.time, p2) := by
  unfold runFrame
  rw [if_neg hne, hp2]

lemma tickPlayer_eval (pts : Int) (ft : ℚ) (p q : PStream) (cnt : Nat) (r : PStream)
    (hw : warmupStep ft p = q)
    (hcnt : usizeOfInt (pts - q.last_demo_pts) = cnt)
    (hr : (releaseStep { q with last_demo_pts := pts } cnt).1 = r) :
    (tickPlayer pts ft p).1 = r := by
  unfold tickPlayer
  rw [hw, hcnt, hr]

lemma warmupStep_idle (ft : ℚ) (p : PStream)
    (h : ¬ (0 < p.time_pad ∧ p.decoded_samples.length ≠ 0)) :
    warmupStep ft p = p := by
  unfold warmupStep
  rw [if_neg h]

lemma warmupStep_active (ft : ℚ) (p : PStream)
    (h1 : 0 < p.time_pad) (h2 : p.decoded_samples.length ≠ 0)
    (h3 : ¬ p.time_pad - ft ≤ 0) :
    warmupStep ft p = { p with time_pad := p.time_pad - ft } := by
  unfold warmupStep
  rw [if_pos ⟨h1, h2⟩, if_neg h3]

lemma warmupStep_expire (ft : ℚ) (p : PStream)
    (h1 : 0 < p.time_pad) (h2 : p.decoded_samples.length ≠ 0)
    (h3 : p.time_pad - ft ≤ 0) :
    warmupStep ft p = { p with time_pad := p.time_pad - ft, playing := true } := by
  unfold warmupStep
  rw [if_pos ⟨h1, h2⟩, if_pos h3]

lemma releaseStep_notPlaying (p : PStream) (cnt : Nat) (h : p.playing = false) :
    (releaseStep p cnt).1 = { p with released := p.released + cnt } := by
  unfold releaseStep
  rw [if_neg (by simp [h])]

lemma releaseStep_drain (p : PStream) (cnt : Nat) (h : p.playing = true)
    (hlen : p.decoded_samples.length ≤ cnt * p.bytes_per_sample) :
    (releaseStep p cnt).1 =
      { p with decoded_samples := [], playing := false,
               released := p.released + cnt } := by
  unfold releaseStep consume_samples
  rw [if_pos h]
  cases hq : consumeBytes (cnt * p.bytes_per_sample) p.decoded_samples with
  | mk out rest =>
    have hrest : rest = [] := by
      have h2 := (consumeBytes_spec (cnt * p.bytes_per_sample) p.decoded_samples).2
      rw [hq] at h2
      rw [show rest = p.decoded_samples.drop (cnt * p.bytes_per_sample) from h2]
      exact List.drop_eq_nil_of_le hlen
    subst hrest
    simp only [hq]
    rw [if_pos (by rfl)]

/-- The end-to-end scenario of C3, with the decoded payload abstracted to
any 4800-byte run (2400 16-bit samples): the state after the t = 0.1
frame and after the t = 0.2 frame. -/
lemma c3_run (pl : List Nat) (hpl : pl.length = 4800) :
    (runFrames 2 [⟨0, []⟩, ⟨(1 : ℚ)/10, [pl]⟩]).2 =
      ⟨pl, 1/10, false, 2400, 2, 2400⟩ ∧
    (runFrames 2 [⟨0, []⟩, ⟨(1 : ℚ)/10, [pl]⟩, ⟨(1 : ℚ)/5, []⟩]).2 =
      ⟨[], 0, false, 4800, 2, 4800⟩ := by
  have s1 : runFrame (none, PStream.init 2) ⟨0, []⟩ = (some 0, PStream.init 2) := rfl
  have hpts2 : Rat.floor (((1 : ℚ)/10) * (SAMPLE_RATE : ℚ)) = 2400 := by
    with_unfolding_all decide
  have happ : append_samples (PStream.init 2) pl = ⟨pl, 1/5, false, 0, 2, 0⟩ := by
    unfold append_samples PStream.init INITIAL_TIME_PAD_SECONDS
    simp
  have hw2 : warmupStep ((1 : ℚ)/10) ⟨pl, 1/5, false, 0, 2, 0⟩ =
      ⟨pl, 1/10, false, 0, 2, 0⟩ := by
    rw [warmupStep_active _ _ (by norm_num) (by simp [hpl]) (by norm_num)]
    simp only [PStream.mk.injEq]
    norm_num
  have hft2 : frameDelta (some (0 : ℚ)) ((1 : ℚ)/10) = 1/10 := by
    show max ((1 : ℚ)/10 - 0) 0 = 1/10
    rw [max_eq_left (by norm_num)]
    norm_num
  have s2tick : (tickPlayer (2400 : Int) ((1 : ℚ)/10) ⟨pl, 1/5, false, 0, 2, 0⟩).1 =
      ⟨pl, 1/10, false, 2400, 2, 2400⟩ := by
    refine tickPlayer_eval 2400 ((1 : ℚ)/10) _ ⟨pl, 1/10, false, 0, 2, 0⟩ 2400 _ hw2 ?_ ?_
    · show usizeOfInt ((2400 : Int) - 0) = 2400
      with_unfolding_all decide
    · rw [releaseStep_notPlaying _ _ rfl]
  have s2 : runFrame (some (0 : ℚ), PStream.init 2) ⟨(1 : ℚ)/10, [pl]⟩ =
      (some ((1 : ℚ)/10), ⟨pl, 1/10, false, 2400, 2, 2400⟩) := by
    refine runFrame_tick _ _ _ ?_ ?_
    · show frameDelta (some (0 : ℚ)) ((1 : ℚ)/10) ≠ 0
      rw [hft2]
      norm_num
    · show (tickPlayer (Rat.floor (((1 : ℚ)/10) * (SAMPLE_RATE : ℚ)))
        (frameDelta (some (0 : ℚ)) ((1 : ℚ)/10))
        (List.foldl append_samples (PStream.init 2) [pl])).1 = _
      rw [hpts2, hft2]
      simp only [List.foldl_cons, List.foldl_nil]
      rw [happ]
      exact s2tick
  have hw3 : warmupStep ((1 : ℚ)/10) ⟨pl, 1/10, false, 2400, 2, 2400⟩ =
      ⟨pl, 0, true, 2400, 2, 2400⟩ := by
    rw [warmupStep_expire _ _ (by norm_num) (by simp [hpl]) (by norm_num)]
    simp only [PStream.mk.injEq]
    norm_num
  have hr3 : (releaseStep ⟨pl, 0, true, 4800, 2, 2400⟩ 2400).1 =
      ⟨[], 0, false, 4800, 2, 4800⟩ := by
    rw [releaseStep_drain _ _ rfl (by simp [hpl])]
  have s3tick : (tickPlayer (4800 : Int) ((1 : ℚ)/10) ⟨pl, 1/10, false, 2400, 2, 2400⟩).1 =
      ⟨[], 0, false, 4800, 2, 4800⟩ := by
    refine tickPlayer_eval 4800 ((1 : ℚ)/10) _ ⟨pl, 0, true, 2400, 2, 2400⟩ 2400 _ hw3 ?_ ?_
    · show usizeOfInt ((4800 : Int) - 2400) = 2400
      with_unfolding_all decide
    · exact hr3
  have hpts3 : Rat.floor (((1 : ℚ)/5) * (SAMPLE_RATE : ℚ)) = 4800 := by
    with_unfolding_all decide
  have hft3 : frameDelta (some ((1 : ℚ)/10)) ((1 : ℚ)/5) = 1/10 := by
    show max ((1 : ℚ)/5 - 1/10) 0 = 1/10
    rw [max_eq_left (by norm_num)]
    norm_num
  have s3 : runFrame (some ((1 : ℚ)/10), (⟨pl, 1/10, false, 2400, 2, 2400⟩ : PStream))
      ⟨(1 : ℚ)/5, []⟩ = (some ((1 : ℚ)/5), ⟨[], 0, false, 4800, 2, 4800⟩) := by
    refine runFrame_tick _ _ _ ?_ ?_
    · show frameDelta (some ((1 : ℚ)/10)) ((1 : ℚ)/5) ≠ 0
      rw [hft3]
      norm_num
    · show (tickPlayer (Rat.floor (((1 : ℚ)/5) * (SAMPLE_RATE : ℚ)))
        (frameDelta (some ((1 : ℚ)/10)) ((1 : ℚ)/5))
        (List.foldl append_samples (⟨pl, 1/10, false, 2400, 2, 2400⟩ : PStream) [])).1 = _
      rw [hpts3, hft3]
      simp only [List.foldl_nil]
      exact s3tick
  constructor
  · show (List.foldl runFrame (none, PStream.init 2) [⟨0, []⟩, ⟨(1 : ℚ)/10, [pl]⟩]).2 = _
    rw [List.foldl_cons, s1, List.foldl_cons, s2, List.foldl_nil]
  · show (List.foldl runFrame (none, PStream.init 2)
      [⟨0, []⟩, ⟨(1 : ℚ)/10, [pl]⟩, ⟨(1 : ℚ)/5, []⟩]).2 = _
    rw [List.foldl_cons, s1, List.foldl_cons, s2, List.foldl_cons, s3, List.foldl_nil]

lemma runFrame_no_voice (st : Option ℚ × PStream) (fr : Frame)
    (ha : fr.appends = [])
    (h1 : st.2.time_pad = INITIAL_TIME_PAD_SECONDS)
    (h2 : st.2.playing = false)
    (h3 : st.2.decoded_samples = []) :
    (runFrame st fr).2.time_pad = INITIAL_TIME_PAD_SECONDS ∧
    (runFrame st fr).2.playing = false ∧
    (runFrame st fr).2.decoded_samples = [] := by
  unfold runFrame
  rw [ha]
  simp only [List.foldl_nil]
  split_ifs with hft
  · exact ⟨h1, h2, h3⟩
  · have hw : warmupStep (frameDelta st.1 fr.time) st.2 = st.2 :=
      warmupStep_idle _ _ (by simp [h3])
    unfold tickPlayer
    rw [hw]
    have hrel := releaseStep_notPlaying
      { st.2 with last_demo_pts := Rat.floor (fr.time * (SAMPLE_RATE : ℚ)) }
      (usizeOfInt (Rat.floor (fr.time * (SAMPLE_RATE : ℚ)) - st.2.last_demo_pts)) h2
    rw [hrel]
    exact ⟨h1, h2, h3⟩

lemma run_no_voice : ∀ (fs : List Frame) (st : Option ℚ × PStream),
    (∀ fr ∈ fs, fr.appends = []) →
    (st.2.time_pad = INITIAL_TIME_PAD_SECONDS ∧ st.2.playing = false ∧
      st.2.decoded_samples = []) →
    ((fs.foldl runFrame st).2.time_pad = INITIAL_TIME_PAD_SECONDS ∧
      (fs.foldl runFrame st).2.playing = false ∧
      (fs.foldl runFrame st).2.decoded_samples = []) := by
  intro fs
  induction fs with
  | nil => intro st _ h; exact h
  | cons fr fs ih =>
    intro st hall h
    rw [List.foldl_cons]
    exact ih (runFrame st fr) (fun q hq => hall q (List.mem_cons_of_mem _ hq))
      (runFrame_no_voice st fr (hall fr (List.mem_cons_self _ _)) h.1 h.2.1 h.2.2)

/-- C2: for a chunk with `seq` at least the expected sequence number, a
successfully processed entry invokes the loss-concealment path exactly
`min (seq - expected) 10` times before the payload decode, for every gap
size. -/
theorem c2_plc_count (c : Codec) (cap len seq : Nat) (d2 : List Nat) (total : Nat)
    (st : DecState) (t : Nat) (hge : st.seq ≤ seq)
    (hok : (decodeEntry c cap len seq d2 total st).2 = Except.ok t) :
    (decodeEntry c cap len seq d2 total st).1.plc = st.plc + min (seq - st.seq) 10 := by
  have hlt : ¬ seq < st.seq := not_lt.mpr hge
  unfold decodeEntry at hok ⊢
  rw [if_neg hlt] at hok ⊢
  cases hp : plcLoop c cap (min (seq - st.seq) 10) total st with
  | mk st1 r =>
    cases r with
    | error e =>
      simp only [hp] at hok
      simp at hok
    | ok t1 =>
      obtain ⟨h1, h2, h3, h4⟩ :=
        plcLoop_ok c cap (min (seq - st.seq) 10) total st t1 (by rw [hp])
      simp only [hp] at hok h1 h2 h3 h4 ⊢
      split_ifs at hok ⊢ with hd hc
      all_goals simp [h2]

/-- C2 witness: a gap of three sequence numbers leads to exactly three
concealment invocations. -/
theorem c2_witness :
    (decodeEntry cW 1000 0 3 [] 0 st0).1.plc = st0.plc + min (3 - st0.seq) 10 :=
  c2_plc_count cW 1000 0 3 [] 0 st0 8 (by decide) (by rfl)

/-- C7: a chunk whose sequence number is strictly below the expected one
performs exactly one decoder reset, no loss concealment, and leaves the
expected sequence at `seq + 1`, whatever the outcome of the payload
decode. -/
theorem c7_restart (c : Codec) (cap len seq : Nat) (d2 : List Nat) (total : Nat)
    (st : DecState) (hlt : seq < st.seq) (hwf : st.seq < 65536) :
    (decodeEntry c cap len seq d2 total st).1.resets = st.resets + 1 ∧
    (decodeEntry c cap len seq d2 total st).1.plc = st.plc ∧
    (decodeEntry c cap len seq d2 total st).1.seq = seq + 1 := by
  have hmod : (seq + 1) % 65536 = seq + 1 := Nat.mod_eq_of_lt (by omega)
  unfold decodeEntry
  simp only [if_pos hlt]
  split_ifs with hd hc <;> simp [hmod]

/-- C7 witness: sequence number 3 against expected sequence 5 gives one
reset, no concealment, and expected sequence 4. -/
theorem c7_witness :
    (decodeEntry cW 1000 0 3 [] 0 stEx).1.resets = stEx.resets + 1 ∧
    (decodeEntry cW 1000 0 3 [] 0 stEx).1.plc = stEx.plc ∧
    (decodeEntry cW 1000 0 3 [] 0 stEx).1.seq = 3 + 1 :=
  c7_restart cW 1000 0 3 [] 0 stEx (by decide) (by decide)

/-- C10: a successfully processed chunk with sequence number 65535 wraps
the expected sequence to 0 (the `u16` update `seq + 1` modulo `2 ^ 16`),
so no later sequence number can satisfy the restart test
`seq < expectedSequence`. -/
theorem c10_wrap (c : Codec) (cap len : Nat) (d2 : List Nat) (total : Nat)
    (st : DecState) (t : Nat) (hwf : st.seq < 65536)
    (hok : (decodeEntry c cap len 65535 d2 total st).2 = Except.ok t) :
    (decodeEntry c cap len 65535 d2 total st).1.seq = 0 ∧
    ∀ s : Nat, ¬ s < (decodeEntry c cap len 65535 d2 total st).1.seq := by
  have hseq : (decodeEntry c cap len 65535 d2 total st).1.seq = 0 := by
    have hlt : ¬ 65535 < st.seq := by omega
    unfold decodeEntry at hok ⊢
    rw [if_neg hlt] at hok ⊢
    cases hp : plcLoop c cap (min (65535 - st.seq) 10) total st with
    | mk st1 r =>
      cases r with
      | error e =>
        simp only [hp] at hok
        simp at hok
      | ok t1 =>
        simp only [hp] at hok ⊢
        split_ifs at hok ⊢ with hd hc
        all_goals simp
  exact ⟨hseq, fun s => by simp [hseq]⟩

/-- C10 witness: a chunk with sequence number 65535 against expected
sequence 5 leaves the expected sequence at 0. -/
theorem c10_witness :
    (decodeEntry cW 1000 0 65535 [] 0 stEx).1.seq = 0 ∧
    ∀ s : Nat, ¬ s < (decodeEntry cW 1000 0 65535 [] 0 stEx).1.seq :=
  c10_wrap cW 1000 0 [] 0 stEx 22 (by decide) (by rfl)

/-- C4 counterexample: an input of exactly two remaining bytes holding the
`0xFFFF` sentinel is NOT processed: the loop guard is `data.len() > 2`, so
the decoder state is returned unchanged (the claim requires the sentinel
to be read and `expectedSequence` set to 0, but the expected sequence
stays 5). -/
theorem c4_counterexample :
    (decode_opus c0 100 [255, 255] stEx).1 = stEx ∧
    (decode_opus c0 100 [255, 255] stEx).2 = Except.ok 0 ∧
    stEx.seq ≠ 0 := by
  refine ⟨rfl, rfl, by decide⟩

/-- C4 amended: the per-message loop processes another entry only while
MORE than 2 bytes remain; any input with 2 or fewer remaining bytes stops
with the state unchanged and no output, while a sentinel followed by at
least one more byte is processed. -/
theorem c4_amended :
    (∀ (c : Codec) (cap : Nat) (data : List Nat) (st : DecState),
        data.length ≤ 2 → decode_opus c cap data st = (st, Except.ok 0)) ∧
    (∀ (c : Codec) (cap x : Nat) (st : DecState),
        decode_opus c cap [255, 255, x] st =
          ({ st with seq := 0, resets := st.resets + 1 }, Except.ok 0)) := by
  constructor
  · intro c cap data st h
    rcases data with _ | ⟨a, _ | ⟨b, _ | ⟨d, tl⟩⟩⟩
    · rfl
    · rfl
    · rfl
    · simp only [List.length_cons] at h
      omega
  · intro c cap x st
    rfl

/-- C4 witness: a one-byte input is left untouched by the loop. -/
theorem c4_witness : decode_opus c0 7 [9] st0 = (st0, Except.ok 0) :=
  c4_amended.1 c0 7 [9] st0 (by decide)

/-- C5 counterexample: a message whose single Opus chunk decodes to
exactly the output capacity (4 bytes into a 4-byte buffer) fails with
`InsufficientOutputBuffer` even though the output does not exceed the
capacity (with ample capacity the same message succeeds with exactly 4
bytes of output): the Rust check is `total >= output_buffer.len()`, not
a strict overflow test. -/
theorem c5_counterexample :
    (decode cQuad 1000000 [Packet.opusPlc [1, 0, 0, 0, 0]] st0).2 = Except.ok 4 ∧
    (decode cQuad 4 [Packet.opusPlc [1, 0, 0, 0, 0]] st0).2 =
      Except.error DErr.insufficientOutputBuffer :=
  ⟨rfl, rfl⟩

/-- C5 amended: `InsufficientOutputBuffer` fires as soon as accumulated
Opus or loss-concealment output REACHES the capacity, so a success of the
Opus path is always strictly below capacity (no truncation, and an exact
fill is an error, not a success), while silence contributions bypass the
capacity check entirely. -/
theorem c5_amended :
    (∀ (c : Codec) (cap fuel : Nat) (data : List Nat) (total : Nat) (st : DecState) (t : Nat),
        (decodeOpusGo c cap fuel data total st).2 = Except.ok t → t = total ∨ t < cap) ∧
    (∀ (c : Codec) (cap : Nat) (ps : List Packet) (st : DecState) (t : Nat),
        (∀ p ∈ ps, ∀ n, p ≠ Packet.silence n) →
        (decode c cap ps st).2 = Except.ok t → t = 0 ∨ t < cap) ∧
    (∀ (c : Codec) (cap n total : Nat) (st : DecState),
        (decodeGo c cap [Packet.silence n] total st).2 = Except.ok (total + n * 2)) := by
  refine ⟨?_, ?_, ?_⟩
  · intro c cap fuel data total st t h
    exact decodeOpusGo_ok c cap fuel data total st t h
  · intro c cap ps st t hns h
    exact decodeGo_nosilence c cap ps 0 st t hns h
  · intro c cap n total st
    rfl

/-- C5 witness: concrete instantiations of the three parts of the amended
capacity contract. -/
theorem c5_witness :
    ((3 : Nat) = 3 ∨ (3 : Nat) < 5) ∧ ((4 : Nat) = 0 ∨ (4 : Nat) < 9) ∧
    (decodeGo c0 0 [Packet.silence 2] 1 st0).2 = Except.ok (1 + 2 * 2) :=
  ⟨c5_amended.1 c0 5 0 [] 3 st0 3 rfl,
   c5_amended.2.1 cQuad 9 [Packet.opusPlc [1, 0, 0, 0, 0]] st0 4 (by simp) rfl,
   c5_amended.2.2 c0 0 2 1 st0⟩

/-- C6 counterexample: a silence run of one sample contributes 2 bytes to
the output total even when the active sample format is the 4-byte float
format, so it does NOT contribute one sample of the active format: the
Rust code hardcodes `size_of::<i16>()`. -/
theorem c6_counterexample :
    (decode c0 1000 [Packet.silence 1] st0).2 = Except.ok 2 ∧
    2 ≠ 1 * bytesPerSample SampleFormat.flt :=
  ⟨rfl, by decide⟩

/-- C6 amended: a silence run of `n` samples always advances the output
total by exactly `n * 2` bytes (`n` 16-bit sample slots, which equals `n`
samples exactly when the active format is S16), bypasses the codec, and
leaves the decoder state (expected sequence and all ghost call counters)
unchanged. -/
theorem c6_amended (c : Codec) (cap n total : Nat) (st : DecState) (ps : List Packet) :
    decodeGo c cap [Packet.silence n] total st = (st, Except.ok (total + n * 2)) ∧
    decodeGo c cap (Packet.silence n :: ps) total st = decodeGo c cap ps (total + n * 2) st ∧
    n * 2 = n * bytesPerSample SampleFormat.s16 :=
  ⟨rfl, rfl, rfl⟩

/-- C1 (amended): for every replay with non-negative, non-decreasing
timestamps whose pts values fit in `usize`, after every processed tick
(positive tick duration) the cumulative number of released samples for
the speaker equals `floor(tickTimeSeconds * sampleRate)`, whether or not
the speaker is playing. -/
theorem c1_frame_locked (bps : Nat) (l : List Frame) (fr : Frame) (prev : ℚ)
    (h : framesOk none (l ++ [fr]) = true)
    (hprev : (runFrames bps l).1 = some prev)
    (hproc : prev < fr.time) :
    ((runFrames bps (l ++ [fr])).2.released : Int) =
      Rat.floor (fr.time * (SAMPLE_RATE : ℚ)) := by
  obtain ⟨hl, hfr⟩ := framesOk_append l none [fr] h
  have hlast : lastTimeOf none l = some prev := by
    rw [← runFrames_fst' bps l]
    exact hprev
  rw [hlast] at hfr
  obtain ⟨h0, hleF, hbound, _⟩ := framesOk_cons hfr
  have hp : prev ≤ fr.time := leOpt_some hleF
  have hinv : c1Inv (runFrames bps l) :=
    c1_run l (none, PStream.init bps) ⟨rfl, le_refl 0, rfl⟩ hl
  obtain ⟨hA, hB, hC⟩ := hinv
  rw [hprev] at hC
  simp only [ptsBound] at hC
  have hflmono : Rat.floor (prev * (SAMPLE_RATE : ℚ)) ≤
      Rat.floor (fr.time * (SAMPLE_RATE : ℚ)) :=
    ratFloor_mono (mul_le_mul_of_nonneg_right hp (by positivity))
  have hrw : runFrames bps (l ++ [fr]) = runFrame (runFrames bps l) fr := by
    unfold runFrames
    rw [List.foldl_append, List.foldl_cons, List.foldl_nil]
  rw [hrw]
  have hft : frameDelta (runFrames bps l).1 fr.time = fr.time - prev := by
    rw [hprev]
    unfold frameDelta
    exact max_eq_left (by linarith)
  have hftne : ¬ frameDelta (runFrames bps l).1 fr.time = 0 := by
    rw [hft]
    intro hcontra
    have : prev = fr.time := by linarith [sub_eq_zero.mp hcontra]
    exact absurd this (ne_of_lt hproc)
  unfold runFrame
  rw [if_neg hftne]
  obtain ⟨ha1, ha2⟩ := appendsFold_fields fr.appends (runFrames bps l).2
  obtain ⟨ht1, ht2⟩ := tickPlayer_fields
    (Rat.floor (fr.time * (SAMPLE_RATE : ℚ))) (frameDelta (runFrames bps l).1 fr.time)
    (fr.appends.foldl append_samples (runFrames bps l).2)
  show ((tickPlayer _ _ _).1.released : Int) = _
  rw [ht1, ha1, ha2, hA]
  unfold usizeOfInt
  rw [Int.emod_eq_of_lt (by omega) (by omega)]
  omega

/-- C1 counterexample theorem: the claim as stated fails on a
non-decreasing replay with negative timestamps. -/
theorem c1_counterexample :
    ((-1 : ℚ) ≤ -(1/2)) ∧
    frameDelta (runFrames 2 [⟨-1, []⟩]).1 (-(1/2)) ≠ 0 ∧
    ((runFrames 2 c1CexFrames).2.released : Int) ≠
      Rat.floor ((-(1/2) : ℚ) * (SAMPLE_RATE : ℚ)) := by
  with_unfolding_all decide

/-- C1 witness: a two-frame replay at t = 0 and t = 0.1 releases exactly
`floor(0.1 * 24000) = 2400` samples by the end of the processed tick. -/
theorem c1_witness :
    ((runFrames 2 ([⟨0, []⟩] ++ [⟨1/10, []⟩])).2.released : Int) =
      Rat.floor ((1/10 : ℚ) * (SAMPLE_RATE : ℚ)) :=
  c1_frame_locked 2 [⟨0, []⟩] ⟨1/10, []⟩ 0
    (by with_unfolding_all decide) (by with_unfolding_all decide)
    (by norm_num)

/-- C3 counterexample: in the end-to-end scenario the backlog after the
t = 0.2 tick is EMPTY, not 2400 samples: the warm-up timer
(0.2 - 0.1 - 0.1 = 0) expires during the t = 0.2 tick, `isPlaying` turns
true, and the 2400 due samples drain the whole backlog. -/
theorem c3_counterexample :
    (runFrames 2 [⟨0, []⟩, ⟨(1 : ℚ)/10, [List.replicate 4800 1]⟩,
        ⟨(1 : ℚ)/5, []⟩]).2.decoded_samples.length = 0 ∧
    (0 : Nat) ≠ 2400 * 2 := by
  have h := (c3_run (List.replicate 4800 1) (by rw [List.length_replicate])).2
  constructor
  · rw [h]
    rfl
  · decide

/-- C3 (amended): in the end-to-end scenario no real samples are released
through the t = 0.1 tick (the 2400-sample backlog is intact and
`isPlaying` is false, warm-up at 0.1), while at the t = 0.2 tick the
warm-up expires, `isPlaying` becomes true, all 2400 due samples are
consumed from the backlog, and the tick ends with an empty backlog and
`isPlaying` false again. -/
theorem c3_amended (pl : List Nat) (hpl : pl.length = 4800) :
    (runFrames 2 [⟨0, []⟩, ⟨(1 : ℚ)/10, [pl]⟩]).2 =
      ⟨pl, 1/10, false, 2400, 2, 2400⟩ ∧
    (runFrames 2 [⟨0, []⟩, ⟨(1 : ℚ)/10, [pl]⟩, ⟨(1 : ℚ)/5, []⟩]).2 =
      ⟨[], 0, false, 4800, 2, 4800⟩ :=
  c3_run pl hpl

/-- C3 witness: the scenario instantiated with a concrete 4800-byte
payload. -/
theorem c3_witness :
    (runFrames 2 [⟨0, []⟩, ⟨(1 : ℚ)/10, [List.replicate 4800 2]⟩]).2 =
      ⟨List.replicate 4800 2, 1/10, false, 2400, 2, 2400⟩ ∧
    (runFrames 2 [⟨0, []⟩, ⟨(1 : ℚ)/10, [List.replicate 4800 2]⟩,
        ⟨(1 : ℚ)/5, []⟩]).2 =
      ⟨[], 0, false, 4800, 2, 4800⟩ :=
  c3_amended (List.replicate 4800 2) (by rw [List.length_replicate])

/-- C8 counterexample: appending ZERO samples to an empty backlog (which
is reachable, since a voice message can decode to zero bytes) resets the
warm-up timer even though no empty-to-non-empty transition happens, so
the reset does not occur EXACTLY on that transition. -/
theorem c8_counterexample :
    (append_samples pC8 []).time_pad = INITIAL_TIME_PAD_SECONDS ∧
    (append_samples pC8 []).decoded_samples = [] ∧
    pC8.time_pad ≠ INITIAL_TIME_PAD_SECONDS := by
  refine ⟨rfl, rfl, by with_unfolding_all decide⟩

/-- C8 (amended): the warm-up timer is reset to the initial delay exactly
when the append operation runs while the backlog is empty (including
appends of zero new samples, which are not empty-to-non-empty
transitions); it is decremented by the tick duration exactly when it is
positive and the backlog is non-empty; and a speaker that never buffers
keeps the full warm-up and never starts playing. -/
theorem c8_amended :
    (∀ (p : PStream) (s : List Nat),
        (append_samples p s).time_pad =
          if p.decoded_samples.length = 0 then INITIAL_TIME_PAD_SECONDS
          else p.time_pad) ∧
    (∀ (ft : ℚ) (p : PStream),
        (warmupStep ft p).time_pad =
          if 0 < p.time_pad ∧ p.decoded_samples.length ≠ 0 then p.time_pad - ft
          else p.time_pad) ∧
    (∀ (bps : Nat) (fs : List Frame), (∀ fr ∈ fs, fr.appends = []) →
        (runFrames bps fs).2.time_pad = INITIAL_TIME_PAD_SECONDS ∧
        (runFrames bps fs).2.playing = false ∧
        (runFrames bps fs).2.decoded_samples = []) := by
  refine ⟨?_, ?_, ?_⟩
  · intro p s
    unfold append_samples
    split_ifs <;> rfl
  · intro ft p
    unfold warmupStep
    split_ifs <;> rfl
  · intro bps fs hfs
    exact run_no_voice fs (none, PStream.init bps) hfs ⟨rfl, rfl, rfl⟩

/-- C8 witness: a silent two-frame replay leaves the warm-up untouched
and never starts playback. -/
theorem c8_witness :
    (runFrames 2 [⟨0, []⟩, ⟨1, []⟩]).2.time_pad = INITIAL_TIME_PAD_SECONDS ∧
    (runFrames 2 [⟨0, []⟩, ⟨1, []⟩]).2.playing = false ∧
    (runFrames 2 [⟨0, []⟩, ⟨1, []⟩]).2.decoded_samples = [] :=
  c8_amended.2.2 2 [⟨0, []⟩, ⟨1, []⟩] (by
    intro fr hfr
    simp only [List.mem_cons] at hfr
    rcases hfr with h | h | h
    · rw [h]
    · rw [h]
    · simp at h)

/-- C9: on a tick where the speaker is playing, the release returns
exactly the due number of bytes (`cnt * bytes_per_sample`), never fails,
flips `isPlaying` to false exactly when the backlog is empty after the
release, and on underrun (backlog smaller than due) pads the shortfall
with zero samples, emptying the backlog and stopping playback. -/
theorem c9_release (p : PStream) (cnt : Nat) (hplay : p.playing = true) :
    ((releaseStep p cnt).2).length = cnt * p.bytes_per_sample ∧
    ((releaseStep p cnt).1.playing = false ↔
      (releaseStep p cnt).1.decoded_samples = []) ∧
    (p.decoded_samples.length < cnt * p.bytes_per_sample →
      (releaseStep p cnt).2 = p.decoded_samples ++
        List.replicate (cnt * p.bytes_per_sample - p.decoded_samples.length) 0 ∧
      (releaseStep p cnt).1.playing = false ∧
      (releaseStep p cnt).1.decoded_samples = []) := by
  unfold releaseStep consume_samples
  rw [if_pos hplay]
  cases hq : consumeBytes (cnt * p.bytes_per_sample) p.decoded_samples with
  | mk out rest =>
    have h1 : out = p.decoded_samples.take (cnt * p.bytes_per_sample) ++
        List.replicate (cnt * p.bytes_per_sample - p.decoded_samples.length) 0 := by
      have h := (consumeBytes_spec (cnt * p.bytes_per_sample) p.decoded_samples).1
      rw [hq] at h
      exact h
    have h2 : rest = p.decoded_samples.drop (cnt * p.bytes_per_sample) := by
      have h := (consumeBytes_spec (cnt * p.bytes_per_sample) p.decoded_samples).2
      rw [hq] at h
      exact h
    simp only [hq]
    refine ⟨?_, ?_, ?_⟩
    · split_ifs with h0 <;>
        simp [h1, List.length_take, List.length_replicate, List.length_append] <;> omega
    · split_ifs with h0
      · have hrest : rest = [] := List.length_eq_zero.mp h0
        simp [hrest]
      · have hrest : rest ≠ [] := fun hc => h0 (by rw [hc]; rfl)
        simp [hplay, hrest]
    · intro hlt
      split_ifs with h0
      · refine ⟨?_, rfl, ?_⟩
        · rw [h1, List.take_of_length_le (le_of_lt hlt)]
        · show rest = []
          rw [h2]
          exact List.drop_eq_nil_of_le (le_of_lt hlt)
      · exfalso
        apply h0
        show rest.length = 0
        rw [h2, List.drop_eq_nil_of_le (le_of_lt hlt)]
        rfl

/-- C9 witness: releasing 2 due samples from a 3-byte backlog yields
exactly 4 bytes, zero-padded, and stops playback on the emptied
backlog. -/
theorem c9_witness :
    ((releaseStep pW 2).2).length = 2 * pW.bytes_per_sample ∧
    (releaseStep pW 2).2 = pW.decoded_samples ++
      List.replicate (2 * pW.bytes_per_sample - pW.decoded_samples.length) 0 ∧
    (releaseStep pW 2).1.playing = false :=
  ⟨(c9_release pW 2 rfl).1,
   ((c9_release pW 2 rfl).2.2 (by decide)).1,
   ((c9_release pW 2 rfl).2.2 (by decide)).2.1⟩

end GVE
